import Mathlib

/-- JSON-compatible values. -/
inductive JsonVal where
  | null
  | bool (b : Bool)
  | num (neg : Bool) (ip : List (Fin 10)) (fp : Option (List (Fin 10)))
  | str (s : String)
  | arr (elems : List JsonVal)
  | obj (fields : List (String × JsonVal))

def lbrace : Char := Char.ofNat 123
def rbrace : Char := Char.ofNat 125

def digitChar (d : Fin 10) : Char := Char.ofNat (48 + d.val)

def hexDigitChar (n : Nat) : Char :=
  if n < 10 then Char.ofNat (48 + n) else Char.ofNat (87 + n)

def uEscape (n : Nat) : List Char :=
  '\\' :: 'u' :: '0' :: '0' :: hexDigitChar (n / 16) :: [hexDigitChar (n % 16)]

def escapeChar (c : Char) : List Char :=
  if c = '"' then ['\\', '"']
  else if c = '\\' then ['\\', '\\']
  else if c.toNat < 32 then uEscape c.toNat
  else [c]

def escapeString (cs : List Char) : List Char := cs.flatMap escapeChar

def kwNull : List Char := "null".data

def kwTrue : List Char := "true".data

def kwFalse : List Char := "false".data

mutual

def encodeVal : JsonVal → List Char
  | .null => kwNull
  | .bool true => kwTrue
  | .bool false => kwFalse
  | .num neg ip fp =>
      (if neg then ['-'] else []) ++ ip.map digitChar ++
        (match fp with
         | none => []
         | some ds => '.' :: ds.map digitChar)
  | .str s => '"' :: escapeString s.data ++ ['"']
  | .arr [] => ['[', ']']
  | .arr (e :: es) => '[' :: encodeVal e ++ encodeElems es ++ [']']
  | .obj [] => [lbrace, rbrace]
  | .obj (f :: fs) => lbrace :: encodeField f ++ encodeFields fs ++ [rbrace]

def encodeElems : List JsonVal → List Char
  | [] => []
  | e :: es => ',' :: encodeVal e ++ encodeElems es

def encodeField : String × JsonVal → List Char
  | (k, v) => '"' :: escapeString k.data ++ ['"', ':'] ++ encodeVal v

def encodeFields : List (String × JsonVal) → List Char
  | [] => []
  | f :: fs => ',' :: encodeField f ++ encodeFields fs

end

def fromHexDigit (c : Char) : Option Nat :=
  if 48 ≤ c.toNat ∧ c.toNat < 58 then some (c.toNat - 48)
  else if 97 ≤ c.toNat ∧ c.toNat < 103 then some (c.toNat - 87)
  else none

def parseStringBody : List Char → Option (List Char × List Char)
  | [] => none
  | c :: rest =>
    if c = '"' then some ([], rest)
    else if c = '\\' then
      match rest with
      | [] => none
      | e :: rest2 =>
        if e = '"' then (parseStringBody rest2).map (fun p => ('"' :: p.1, p.2))
        else if e = '\\' then (parseStringBody rest2).map (fun p => ('\\' :: p.1, p.2))
        else if e = 'u' then
          match rest2 with
          | h3 :: h2 :: h1 :: h0 :: rest3 =>
            match fromHexDigit h3, fromHexDigit h2, fromHexDigit h1, fromHexDigit h0 with
            | some a, some b, some c2, some d =>
              (parseStringBody rest3).map
                (fun p => (Char.ofNat (((a * 16 + b) * 16 + c2) * 16 + d) :: p.1, p.2))
            | _, _, _, _ => none
          | _ => none
        else none
    else (parseStringBody rest).map (fun p => (c :: p.1, p.2))

def parseDigits : List Char → List (Fin 10) × List Char
  | [] => ([], [])
  | c :: rest =>
    if h : 48 ≤ c.toNat ∧ c.toNat < 58 then
      let p := parseDigits rest
      (⟨c.toNat - 48, by omega⟩ :: p.1, p.2)
    else ([], c :: rest)

def parseNum (cs : List Char) : Option (JsonVal × List Char) :=
  let s1 : Bool × List Char :=
    match cs with
    | c :: rest => if c = '-' then (true, rest) else (false, cs)
    | [] => (false, cs)
  let p1 := parseDigits s1.2
  if p1.1.isEmpty then none
  else
    match p1.2 with
    | c :: rest =>
        if c = '.' then
          let p2 := parseDigits rest
          some (.num s1.1 p1.1 (some p2.1), p2.2)
        else some (.num s1.1 p1.1 none, p1.2)
    | [] => some (.num s1.1 p1.1 none, p1.2)

def parseFieldWith (pv : List Char → Option (JsonVal × List Char)) :
    List Char → Option ((String × JsonVal) × List Char)
  | [] => none
  | c :: rest =>
    if c = '"' then
      match parseStringBody rest with
      | none => none
      | some (k, r1) =>
        match r1 with
        | [] => none
        | d :: r2 =>
          if d = ':' then
            (pv r2).map (fun p => ((String.mk k, p.1), p.2))
          else none
    else none

def groupBody {α : Type} (close : Char) (pitem : List Char → Option (α × List Char))
    (ploop : List Char → Option (List α × List Char)) (rest : List Char) :
    Option (List α × List Char) :=
  match rest with
  | [] => none
  | d :: _ =>
    if d = close then some ([], rest.tail)
    else
      match pitem rest with
      | none => none
      | some (v, r1) =>
        match ploop r1 with
        | none => none
        | some (vs, r2) =>
          match r2 with
          | e :: r3 => if e = close then some (v :: vs, r3) else none
          | [] => none

def commaLoop {α : Type} (pitem : List Char → Option (α × List Char))
    (ploop : List Char → Option (List α × List Char)) : List Char → Option (List α × List Char)
  | [] => some ([], [])
  | c :: rest =>
    if c = ',' then
      match pitem rest with
      | none => none
      | some (v, r1) =>
        match ploop r1 with
        | none => none
        | some (vs, r2) => some (v :: vs, r2)
    else some ([], c :: rest)

def sepLoop {α : Type} (pitem : List Char → Option (α × List Char)) :
    Nat → List Char → Option (List α × List Char)
  | 0 => fun _ => none
  | fuel+1 => commaLoop pitem (sepLoop pitem fuel)

def parseValF (pv : List Char → Option (JsonVal × List Char))
    (ploopE : List Char → Option (List JsonVal × List Char))
    (ploopF : List Char → Option (List (String × JsonVal) × List Char))
    (cs : List Char) : Option (JsonVal × List Char) :=
  match cs with
  | [] => none
  | c :: rest =>
    if c = 'n' then
      if rest.take 3 = "ull".data then some (.null, rest.drop 3) else none
    else if c = 't' then
      if rest.take 3 = "rue".data then some (.bool true, rest.drop 3) else none
    else if c = 'f' then
      if rest.take 4 = "alse".data then some (.bool false, rest.drop 4) else none
    else if c = '"' then
      (parseStringBody rest).map (fun p => (.str (String.mk p.1), p.2))
    else if c = '[' then
      (groupBody ']' pv ploopE rest).map (fun p => (.arr p.1, p.2))
    else if c = lbrace then
      (groupBody rbrace (parseFieldWith pv) ploopF rest).map (fun p => (.obj p.1, p.2))
    else parseNum cs

def parseVal : Nat → List Char → Option (JsonVal × List Char)
  | 0 => fun _ => none
  | fuel+1 =>
    parseValF (parseVal fuel) (sepLoop (parseVal fuel) fuel)
      (sepLoop (parseFieldWith (parseVal fuel)) fuel)

def encode (v : JsonVal) : String := String.mk (encodeVal v)

def decode (s : String) : Option JsonVal :=
  match parseVal (s.data.length + 1) s.data with
  | some (v, []) => some v
  | _ => none

mutual

def wfV : JsonVal → Bool
  | .null => true
  | .bool _ => true
  | .num _ ip _ => !ip.isEmpty
  | .str _ => true
  | .arr es => wfEs es
  | .obj fs => wfFs fs

def wfEs : List JsonVal → Bool
  | [] => true
  | e :: es => wfV e && wfEs es

def wfFs : List (String × JsonVal) → Bool
  | [] => true
  | (_, v) :: fs => wfV v && wfFs fs

end

mutual

def sizeV : JsonVal → Nat
  | .null => 1
  | .bool _ => 1
  | .num _ _ _ => 1
  | .str _ => 1
  | .arr [] => 1
  | .arr (e :: es) => 1 + sizeV e + sizeEs es
  | .obj [] => 1
  | .obj ((_, v) :: fs) => 1 + sizeV v + sizeFs fs

def sizeEs : List JsonVal → Nat
  | [] => 1
  | e :: es => 1 + sizeV e + sizeEs es

def sizeFs : List (String × JsonVal) → Nat
  | [] => 1
  | (_, v) :: fs => 1 + sizeV v + sizeFs fs

end

def noDigitHead : List Char → Prop
  | [] => True
  | c :: _ => ¬(48 ≤ c.toNat ∧ c.toNat < 58)

def numSafe : List Char → Prop
  | [] => True
  | c :: _ => ¬(48 ≤ c.toNat ∧ c.toNat < 58) ∧ c ≠ '.'

structure Row where
  user : Int
  chat : Int
  val : String
deriving DecidableEq

structure DBState where
  stateTbl : Option (List Row)
  dataTbl : Option (List Row)
  bucketTbl : Option (List Row)
deriving DecidableEq

inductive DBErr where
  | addressError
  | noSuchTable
  | deserializationError
  | typeError
deriving DecidableEq

def upsertRow (t : List Row) (user chat : Int) (v : String) : List Row :=
  if t.any (fun r => r.user == user) then
    t.map (fun r => if r.user == user then { r with val := v } else r)
  else
    t ++ [⟨user, chat, v⟩]

def deleteRows (t : List Row) (chat user : Int) : List Row :=
  t.filter (fun r => !(r.chat == chat && r.user == user))

def selectRow (t : List Row) (chat user : Int) : Option Row :=
  t.find? (fun r => r.chat == chat && r.user == user)

def getTable (t : Option (List Row)) : Except DBErr (List Row) :=
  match t with
  | none => .error .noSuchTable
  | some rows => .ok rows

def dropTable (t : Option (List Row)) : Except DBErr Unit :=
  match t with
  | none => .error .noSuchTable
  | some _ => .ok ()

/-- Modelled from the spec: key resolution of `BaseStorage.check_address` (the aiogram
base class is not part of this repository): chat and user must not both be absent;
a missing one defaults to the other. -/
def checkAddress (chat user : Option Int) : Option (Int × Int) :=
  match chat, user with
  | none, none => none
  | some c, none => some (c, c)
  | none, some u => some (u, u)
  | some c, some u => some (c, u)

/-- Modelled from the spec: `BaseStorage.resolve_state` normalization (aiogram base
class, not part of this repository); on plain string states it is the identity. -/
def resolveStateStr (s : String) : String := s

/-- Modelled from the spec: `resolve_state` applied to an optional state or default. -/
def resolveState (s : Option String) : Option String := s.map resolveStateStr

abbrev Jobj := List (String × JsonVal)

def pyTruthyStr (r : Option String) : Bool :=
  match r with
  | none => false
  | some s => !(s == "")

def pyTruthyDict (d : Option Jobj) : Bool :=
  match d with
  | none => false
  | some m => !m.isEmpty

def pyDictOr (d : Option Jobj) : Jobj :=
  match d with
  | some m => if m.isEmpty then [] else m
  | none => []

def dictSet (m : Jobj) (k : String) (v : JsonVal) : Jobj :=
  if m.any (fun p => p.1 == k) then
    m.map (fun p => if p.1 == k then (k, v) else p)
  else
    m ++ [(k, v)]

def dictUpdate (m src : Jobj) : Jobj :=
  src.foldl (fun acc p => dictSet acc p.1 p.2) m

def bucketJson (bucket : Option Jobj) : JsonVal :=
  match bucket with
  | none => .null
  | some m => .obj m

namespace SQLiteStorage

def set_state (st : DBState) (chat user : Option Int) (state : Option String) :
    Except DBErr DBState :=
  match checkAddress chat user with
  | none => .error .addressError
  | some (c, u) => do
    let tbl ← getTable st.stateTbl
    match state with
    | some s => pure { st with stateTbl := some (upsertRow tbl u c (resolveStateStr s)) }
    | none => pure { st with stateTbl := some (deleteRows tbl c u) }

def get_state (st : DBState) (chat user : Option Int) (default : Option String) :
    Except DBErr (Option String) :=
  match checkAddress chat user with
  | none => .error .addressError
  | some (c, u) => do
    let tbl ← getTable st.stateTbl
    match selectRow tbl c u with
    | some r => pure (some r.val)
    | none => pure (resolveState default)

def set_data (st : DBState) (chat user : Option Int) (data : Option Jobj) :
    Except DBErr DBState :=
  match checkAddress chat user with
  | none => .error .addressError
  | some (c, u) => do
    let tbl ← getTable st.dataTbl
    if pyTruthyDict data then
      pure { st with dataTbl := some (upsertRow tbl u c (encode (.obj (data.getD [])))) }
    else
      pure { st with dataTbl := some (deleteRows tbl c u) }

def get_data (st : DBState) (chat user : Option Int) (default : Option Jobj) :
    Except DBErr JsonVal :=
  match checkAddress chat user with
  | none => .error .addressError
  | some (c, u) => do
    let tbl ← getTable st.dataTbl
    match selectRow tbl c u with
    | some r =>
      match decode r.val with
      | some v => pure v
      | none => .error .deserializationError
    | none => pure (.obj (pyDictOr default))

def update_data (st : DBState) (chat user : Option Int) (data : Option Jobj)
    (kwargs : Jobj) : Except DBErr DBState := do
  let d := data.getD []
  let temp ← get_data st chat user (some [])
  match temp with
  | .obj m => set_data st chat user (some (dictUpdate (dictUpdate m d) kwargs))
  | _ => .error .typeError

def has_bucket : Bool := true

def get_bucket (st : DBState) (chat user : Option Int) (default : Option Jobj) :
    Except DBErr JsonVal :=
  match checkAddress chat user with
  | none => .error .addressError
  | some (c, u) => do
    let tbl ← getTable st.bucketTbl
    match selectRow tbl c u with
    | some r =>
      match decode r.val with
      | some v => pure v
      | none => .error .deserializationError
    | none => pure (.obj (pyDictOr default))

def set_bucket (st : DBState) (chat user : Option Int) (bucket : Option Jobj) :
    Except DBErr DBState :=
  match checkAddress chat user with
  | none => .error .addressError
  | some (c, u) => do
    let tbl ← getTable st.bucketTbl
    pure { st with bucketTbl := some (upsertRow tbl u c (encode (bucketJson bucket))) }

def update_bucket (st : DBState) (chat user : Option Int) (bucket : Option Jobj)
    (kwargs : Jobj) : Except DBErr DBState := do
  let b := bucket.getD []
  let temp ← get_bucket st chat user none
  match temp with
  | .obj m => set_bucket st chat user (some (dictUpdate (dictUpdate m b) kwargs))
  | _ => .error .typeError

def reset_all (st : DBState) (full : Bool) : Except DBErr DBState := do
  let _ ← dropTable st.stateTbl
  let st1 := { st with stateTbl := none }
  if full then do
    let _ ← dropTable st1.dataTbl
    let st2 := { st1 with dataTbl := none }
    let _ ← dropTable st2.bucketTbl
    pure { st2 with bucketTbl := none }
  else
    pure st1

def get_states_list (st : DBState) : Except DBErr (List (Int × Int)) := do
  let tbl ← getTable st.stateTbl
  pure (tbl.map (fun r => (r.chat, r.user)))

end SQLiteStorage

namespace PGStorage

def set_state (st : DBState) (chat user : Option Int) (state : Option String) :
    Except DBErr DBState :=
  match checkAddress chat user with
  | none => .error .addressError
  | some (c, u) => do
    let tbl ← getTable st.stateTbl
    match state with
    | some s => pure { st with stateTbl := some (upsertRow tbl u c (resolveStateStr s)) }
    | none => pure { st with stateTbl := some (deleteRows tbl c u) }

def get_state (st : DBState) (chat user : Option Int) (default : Option String) :
    Except DBErr (Option String) :=
  match checkAddress chat user with
  | none => .error .addressError
  | some (c, u) => do
    let tbl ← getTable st.stateTbl
    let result := (selectRow tbl c u).map (fun r => r.val)
    if pyTruthyStr result then pure result else pure (resolveState default)

def set_data (st : DBState) (chat user : Option Int) (data : Option Jobj) :
    Except DBErr DBState :=
  match checkAddress chat user with
  | none => .error .addressError
  | some (c, u) => do
    let tbl ← getTable st.dataTbl
    if pyTruthyDict data then
      pure { st with dataTbl := some (upsertRow tbl u c (encode (.obj (data.getD [])))) }
    else
      pure { st with dataTbl := some (deleteRows tbl c u) }

def get_data (st : DBState) (chat user : Option Int) (default : Option Jobj) :
    Except DBErr JsonVal :=
  match checkAddress chat user with
  | none => .error .addressError
  | some (c, u) => do
    let tbl ← getTable st.dataTbl
    let result := (selectRow tbl c u).map (fun r => r.val)
    if pyTruthyStr result then
      match decode (result.getD "") with
      | some v => pure v
      | none => .error .deserializationError
    else
      pure (.obj (pyDictOr default))

def update_data (st : DBState) (chat user : Option Int) (data : Option Jobj)
    (kwargs : Jobj) : Except DBErr DBState := do
  let d := data.getD []
  let temp ← get_data st chat user (some [])
  match temp with
  | .obj m => set_data st chat user (some (dictUpdate (dictUpdate m d) kwargs))
  | _ => .error .typeError

def has_bucket : Bool := true

def get_bucket (st : DBState) (chat user : Option Int) (default : Option Jobj) :
    Except DBErr JsonVal :=
  match checkAddress chat user with
  | none => .error .addressError
  | some (c, u) => do
    let tbl ← getTable st.bucketTbl
    let result := (selectRow tbl c u).map (fun r => r.val)
    if pyTruthyStr result then
      match decode (result.getD "") with
      | some v => pure v
      | none => .error .deserializationError
    else
      pure (.obj (pyDictOr default))

def set_bucket (st : DBState) (chat user : Option Int) (bucket : Option Jobj) :
    Except DBErr DBState :=
  match checkAddress chat user with
  | none => .error .addressError
  | some (c, u) => do
    let tbl ← getTable st.bucketTbl
    pure { st with bucketTbl := some (upsertRow tbl u c (encode (bucketJson bucket))) }

def update_bucket (st : DBState) (chat user : Option Int) (bucket : Option Jobj)
    (kwargs : Jobj) : Except DBErr DBState := do
  let b := bucket.getD []
  let temp ← get_bucket st chat user none
  match temp with
  | .obj m => set_bucket st chat user (some (dictUpdate (dictUpdate m b) kwargs))
  | _ => .error .typeError

def reset_all (st : DBState) (full : Bool) : Except DBErr DBState := do
  let _ ← dropTable st.stateTbl
  let st1 := { st with stateTbl := none }
  if full then do
    let _ ← dropTable st1.dataTbl
    let st2 := { st1 with dataTbl := none }
    let _ ← dropTable st2.bucketTbl
    pure { st2 with bucketTbl := none }
  else
    pure st1

def get_states_list (st : DBState) : Except DBErr (List (Int × Int)) := do
  let tbl ← getTable st.stateTbl
  pure (tbl.map (fun r => (r.chat, r.user)))

end PGStorage

def usersNodup (t : List Row) : Prop := (t.map Row.user).Nodup

def tblTextsNonempty (t : Option (List Row)) : Prop :=
  match t with
  | none => True
  | some rows => ∀ r ∈ rows, r.val ≠ ""

def textsNonempty (st : DBState) : Prop :=
  tblTextsNonempty st.stateTbl ∧ tblTextsNonempty st.dataTbl ∧ tblTextsNonempty st.bucketTbl

def emptyStore : DBState := ⟨some [], some [], some []⟩

theorem kwNull_length : kwNull.length = 4 := rfl

theorem kwTrue_length : kwTrue.length = 4 := rfl

theorem kwFalse_length : kwFalse.length = 5 := rfl

theorem sizeV_pos (v : JsonVal) : 1 ≤ sizeV v := by
  cases v with
  | arr es => cases es <;> simp [sizeV] <;> omega
  | obj fs => cases fs with
    | nil => simp [sizeV]
    | cons f fs => obtain ⟨k, v⟩ := f; simp [sizeV]; omega
  | _ => simp [sizeV]

theorem sizeEs_pos (es : List JsonVal) : 1 ≤ sizeEs es := by
  cases es <;> simp [sizeEs] <;> omega

theorem sizeFs_pos (fs : List (String × JsonVal)) : 1 ≤ sizeFs fs := by
  cases fs with
  | nil => simp [sizeFs]
  | cons f fs => obtain ⟨k, v⟩ := f; simp [sizeFs]; omega

theorem mkData (s : String) : String.mk s.data = s := rfl

theorem fromHex_hexDigit (n : Nat) (h : n < 16) : fromHexDigit (hexDigitChar n) = some n := by
  interval_cases n <;> rfl

theorem parseStringBody_escapeChar (c : Char) (rest : List Char) :
    parseStringBody (escapeChar c ++ rest) =
      (parseStringBody rest).map (fun p => (c :: p.1, p.2)) := by
  by_cases h1 : c = '"'
  · subst h1
    rw [show escapeChar '"' ++ rest = '\\' :: '"' :: rest from rfl, parseStringBody.eq_def]
    simp
  · by_cases h2 : c = '\\'
    · subst h2
      rw [show escapeChar '\\' ++ rest = '\\' :: '\\' :: rest from rfl, parseStringBody.eq_def]
      simp
    · by_cases h3 : c.toNat < 32
      · have d1 : c.toNat / 16 < 16 := by omega
        have d2 : c.toNat % 16 < 16 := by omega
        rw [show escapeChar c ++ rest
              = '\\' :: 'u' :: '0' :: '0' :: hexDigitChar (c.toNat / 16)
                  :: hexDigitChar (c.toNat % 16) :: rest by
            simp [escapeChar, uEscape, if_neg h1, if_neg h2, if_pos h3]]
        rw [parseStringBody.eq_def]
        have h0 : fromHexDigit '0' = some 0 := by rfl
        simp only [fromHex_hexDigit _ d1, fromHex_hexDigit _ d2, h0]
        have harith : ((0 * 16 + 0) * 16 + c.toNat / 16) * 16 + c.toNat % 16 = c.toNat := by
          omega
        simp only [harith, Char.ofNat_toNat]
        simp
      · rw [show escapeChar c ++ rest = c :: rest by
            simp [escapeChar, if_neg h1, if_neg h2, if_neg h3]]
        rw [parseStringBody.eq_def]
        simp [if_neg h1, if_neg h2]

theorem parseStringBody_escape (cs rest : List Char) :
    parseStringBody (escapeString cs ++ '"' :: rest) = some (cs, rest) := by
  induction cs with
  | nil =>
    rw [show escapeString [] ++ '"' :: rest = '"' :: rest from rfl, parseStringBody.eq_def]
    simp
  | cons c cs ih =>
    rw [show escapeString (c :: cs) = escapeChar c ++ escapeString cs by
          simp [escapeString]]
    rw [List.append_assoc, parseStringBody_escapeChar, ih]
    rfl

theorem digitChar_not_digitish :
    ∀ d : Fin 10, (48 ≤ (digitChar d).toNat ∧ (digitChar d).toNat < 58) ∧
      ((digitChar d).toNat - 48 = d.val) := by decide

theorem parseDigits_map (ds : List (Fin 10)) (rest : List Char) (h : noDigitHead rest) :
    parseDigits (ds.map digitChar ++ rest) = (ds, rest) := by
  induction ds with
  | nil =>
    cases rest with
    | nil => rfl
    | cons c r =>
      simp only [List.map_nil, List.nil_append, parseDigits]
      rw [dif_neg (by exact h)]
  | cons d ds ih =>
    simp only [List.map_cons, List.cons_append, parseDigits]
    rw [dif_pos (digitChar_not_digitish d).1]
    simp only [List.append_eq]
    rw [ih]
    congr 2
    exact Fin.ext (digitChar_not_digitish d).2

theorem numSafe_noDigit {rest : List Char} (h : numSafe rest) : noDigitHead rest := by
  cases rest with
  | nil => trivial
  | cons c r => exact h.1

theorem digitChar_ne_minus : ∀ d : Fin 10, ¬digitChar d = '-' := by decide

theorem parseNum_digits_none (neg : Bool) (d : Fin 10) (ds : List (Fin 10))
    (rest : List Char) (h : numSafe rest) :
    parseNum ((if neg then ['-'] else []) ++ (d :: ds).map digitChar ++ rest)
      = some (.num neg (d :: ds) none, rest) := by
  have hdig : parseDigits (List.map digitChar (d :: ds) ++ rest) = (d :: ds, rest) :=
    parseDigits_map _ _ (numSafe_noDigit h)
  cases neg with
  | true =>
    simp only [if_pos, List.cons_append, List.nil_append, parseNum, List.append_assoc]
    rw [hdig]
    simp only [List.isEmpty_cons, Bool.false_eq_true, if_false]
    cases rest with
    | nil => rfl
    | cons c r => simp only [if_neg h.2]
  | false =>
    rw [show ((if (false : Bool) then ['-'] else []) ++ List.map digitChar (d :: ds) ++ rest)
          = List.map digitChar (d :: ds) ++ rest by simp]
    simp only [parseNum]
    rw [show (match List.map digitChar (d :: ds) ++ rest with
          | c :: rest_1 => if c = '-' then (true, rest_1)
              else (false, List.map digitChar (d :: ds) ++ rest)
          | [] => (false, List.map digitChar (d :: ds) ++ rest))
        = ((false : Bool), List.map digitChar (d :: ds) ++ rest) by
      simp only [List.map_cons, List.cons_append]
      rw [if_neg (digitChar_ne_minus d)]]
    simp only [hdig]
    simp only [List.isEmpty_cons, Bool.false_eq_true, if_false]
    cases rest with
    | nil => rfl
    | cons c r => simp only [if_neg h.2]

theorem noDigitHead_cons (c : Char) (X : List Char) (h : ¬(48 ≤ c.toNat ∧ c.toNat < 58)) :
    noDigitHead (c :: X) := h

theorem numSafe_cons (c : Char) (X : List Char)
    (h : ¬(48 ≤ c.toNat ∧ c.toNat < 58) ∧ c ≠ '.') : numSafe (c :: X) := h

theorem parseNum_digits_some (neg : Bool) (d : Fin 10) (ds fds : List (Fin 10))
    (rest : List Char) (h : numSafe rest) :
    parseNum ((if neg then ['-'] else []) ++ (d :: ds).map digitChar
        ++ ('.' :: fds.map digitChar) ++ rest)
      = some (.num neg (d :: ds) (some fds), rest) := by
  have hdig : parseDigits (List.map digitChar (d :: ds) ++ ('.' :: (List.map digitChar fds ++ rest)))
      = (d :: ds, '.' :: (List.map digitChar fds ++ rest)) :=
    parseDigits_map _ _ (noDigitHead_cons _ _ (by decide))
  have hdig2 : parseDigits (List.map digitChar fds ++ rest) = (fds, rest) :=
    parseDigits_map _ _ (numSafe_noDigit h)
  cases neg with
  | true =>
    simp only [if_pos, List.cons_append, List.nil_append, parseNum, List.append_assoc]
    rw [hdig]
    simp only [List.isEmpty_cons, Bool.false_eq_true, if_false]
    simp only [if_pos rfl, hdig2, if_true]
  | false =>
    rw [show ((if (false : Bool) then ['-'] else []) ++ List.map digitChar (d :: ds)
          ++ ('.' :: List.map digitChar fds) ++ rest)
          = List.map digitChar (d :: ds) ++ ('.' :: (List.map digitChar fds ++ rest)) by simp]
    simp only [parseNum]
    rw [show (match List.map digitChar (d :: ds) ++ ('.' :: (List.map digitChar fds ++ rest)) with
          | c :: rest_1 => if c = '-' then (true, rest_1)
              else (false, List.map digitChar (d :: ds) ++ ('.' :: (List.map digitChar fds ++ rest)))
          | [] => (false, List.map digitChar (d :: ds) ++ ('.' :: (List.map digitChar fds ++ rest))))
        = ((false : Bool), List.map digitChar (d :: ds) ++ ('.' :: (List.map digitChar fds ++ rest))) by
      simp only [List.map_cons, List.cons_append]
      rw [if_neg (digitChar_ne_minus d)]]
    simp only [hdig]
    simp only [List.isEmpty_cons, Bool.false_eq_true, if_false]
    simp only [if_pos rfl, hdig2, if_true]

theorem parseNum_encode (neg : Bool) (ip : List (Fin 10)) (fp : Option (List (Fin 10)))
    (rest : List Char) (hip : ip ≠ []) (h : numSafe rest) :
    parseNum (encodeVal (.num neg ip fp) ++ rest) = some (.num neg ip fp, rest) := by
  cases ip with
  | nil => exact absurd rfl hip
  | cons d ds =>
    cases fp with
    | none =>
      rw [show encodeVal (.num neg (d :: ds) none) ++ rest
            = (if neg then ['-'] else []) ++ (d :: ds).map digitChar ++ rest by
          simp [encodeVal]]
      rw [parseNum_digits_none _ _ _ _ h]
    | some fds =>
      rw [show encodeVal (.num neg (d :: ds) (some fds)) ++ rest
            = (if neg then ['-'] else []) ++ (d :: ds).map digitChar
                ++ ('.' :: fds.map digitChar) ++ rest by
          simp [encodeVal]]
      rw [parseNum_digits_some _ _ _ _ _ h]

theorem parseVal_succ (fuel : Nat) (cs : List Char) :
    parseVal (fuel+1) cs =
      parseValF (parseVal fuel) (sepLoop (parseVal fuel) fuel)
        (sepLoop (parseFieldWith (parseVal fuel)) fuel) cs := rfl

theorem pv_null (fuel : Nat) (rest : List Char) :
    parseVal (fuel+1) ('n':: 'u':: 'l':: 'l'::rest) = some (.null, rest) := by
  rw [parseVal_succ]; rfl

theorem pv_true (fuel : Nat) (rest : List Char) :
    parseVal (fuel+1) ('t':: 'r':: 'u':: 'e'::rest) = some (.bool true, rest) := by
  rw [parseVal_succ]; rfl

theorem pv_false (fuel : Nat) (rest : List Char) :
    parseVal (fuel+1) ('f':: 'a':: 'l':: 's':: 'e'::rest) = some (.bool false, rest) := by
  rw [parseVal_succ]; rfl

theorem pv_str (fuel : Nat) (rest : List Char) :
    parseVal (fuel+1) ('"'::rest) =
      (parseStringBody rest).map (fun p => (.str (String.mk p.1), p.2)) := by
  rw [parseVal_succ]; rfl

theorem pv_arr (fuel : Nat) (rest : List Char) :
    parseVal (fuel+1) ('['::rest) =
      (groupBody ']' (parseVal fuel) (sepLoop (parseVal fuel) fuel) rest).map
        (fun p => (.arr p.1, p.2)) := by
  rw [parseVal_succ]; rfl

theorem pv_obj (fuel : Nat) (rest : List Char) :
    parseVal (fuel+1) (lbrace::rest) =
      (groupBody rbrace (parseFieldWith (parseVal fuel))
          (sepLoop (parseFieldWith (parseVal fuel)) fuel) rest).map
        (fun p => (.obj p.1, p.2)) := by
  rw [parseVal_succ, parseValF.eq_def]
  have e1 : (lbrace = 'n') = False := by simp [lbrace]
  have e2 : (lbrace = 't') = False := by simp [lbrace]
  have e3 : (lbrace = 'f') = False := by simp [lbrace]
  have e4 : (lbrace = '"') = False := by simp [lbrace]
  have e5 : (lbrace = '[') = False := by simp [lbrace]
  simp only [e1, e2, e3, e4, e5, if_false, if_pos rfl, if_true, eq_self_iff_true]

theorem pv_num (fuel : Nat) (c : Char) (tl : List Char)
    (h1 : c ≠ 'n') (h2 : c ≠ 't') (h3 : c ≠ 'f') (h4 : c ≠ '"') (h5 : c ≠ '[') (h6 : c ≠ lbrace) :
    parseVal (fuel + 1) (c :: tl) = parseNum (c :: tl) := by
  rw [parseVal_succ, parseValF.eq_def]
  simp only [if_neg h1, if_neg h2, if_neg h3, if_neg h4, if_neg h5, if_neg h6]

theorem sepLoop_succ {α : Type} (pitem : List Char → Option (α × List Char)) (fuel : Nat)
    (cs : List Char) :
    sepLoop pitem (fuel+1) cs = commaLoop pitem (sepLoop pitem fuel) cs := rfl

theorem groupBody_close {α : Type} (close : Char)
    (pitem : List Char → Option (α × List Char))
    (ploop : List Char → Option (List α × List Char)) (rest : List Char) :
    groupBody close pitem ploop (close :: rest) = some ([], rest) := by
  simp [groupBody]

theorem groupBody_cons {α : Type} (close : Char)
    (pitem : List Char → Option (α × List Char))
    (ploop : List Char → Option (List α × List Char))
    (c0 : Char) (tl Y rest : List Char) (x : α) (xs : List α)
    (hc : c0 ≠ close)
    (hitem : pitem (c0 :: tl) = some (x, Y))
    (hloop : ploop Y = some (xs, close :: rest)) :
    groupBody close pitem ploop (c0 :: tl) = some (x :: xs, rest) := by
  simp [groupBody, if_neg hc, hitem, hloop]

theorem commaLoop_nil {α : Type} (pitem : List Char → Option (α × List Char))
    (ploop : List Char → Option (List α × List Char)) :
    commaLoop pitem ploop [] = some ([], []) := rfl

theorem commaLoop_stop {α : Type} (pitem : List Char → Option (α × List Char))
    (ploop : List Char → Option (List α × List Char)) (c : Char) (rest : List Char)
    (hc : c ≠ ',') :
    commaLoop pitem ploop (c :: rest) = some ([], c :: rest) := by
  simp [commaLoop, if_neg hc]

theorem commaLoop_cons {α : Type} (pitem : List Char → Option (α × List Char))
    (ploop : List Char → Option (List α × List Char)) (tl Y rest : List Char)
    (x : α) (xs : List α)
    (hitem : pitem tl = some (x, Y))
    (hloop : ploop Y = some (xs, rest)) :
    commaLoop pitem ploop (',' :: tl) = some (x :: xs, rest) := by
  simp [commaLoop, hitem, hloop]

theorem parseFieldWith_encode (pv : List Char → Option (JsonVal × List Char))
    (k : String) (v : JsonVal) (rest : List Char)
    (hpv : pv (encodeVal v ++ rest) = some (v, rest)) :
    parseFieldWith pv (encodeField (k, v) ++ rest) = some ((k, v), rest) := by
  rw [show encodeField (k, v) ++ rest
        = '"' :: (escapeString k.data ++ '"' :: (':' :: (encodeVal v ++ rest))) by
      simp [encodeField]]
  rw [parseFieldWith.eq_def]
  simp only [if_pos rfl, parseStringBody_escape, hpv]
  simp [mkData]

theorem wfEs_mem {es : List JsonVal} (h : wfEs es = true) {e : JsonVal} (he : e ∈ es) :
    wfV e = true := by
  induction es with
  | nil => cases he
  | cons x xs ih =>
    simp only [wfEs, Bool.and_eq_true] at h
    cases he with
    | head => exact h.1
    | tail _ hm => exact ih h.2 hm

theorem wfFs_mem {fs : List (String × JsonVal)} (h : wfFs fs = true)
    {f : String × JsonVal} (hf : f ∈ fs) : wfV f.2 = true := by
  induction fs with
  | nil => cases hf
  | cons x xs ih =>
    obtain ⟨k, v⟩ := x
    simp only [wfFs, Bool.and_eq_true] at h
    cases hf with
    | head => exact h.1
    | tail _ hm => exact ih h.2 hm

theorem sizeEs_mem {es : List JsonVal} {e : JsonVal} (he : e ∈ es) : sizeV e ≤ sizeEs es := by
  induction es with
  | nil => cases he
  | cons x xs ih =>
    cases he with
    | head => simp [sizeEs]; omega
    | tail _ hm => have := ih hm; simp [sizeEs]; omega

theorem sizeFs_mem {fs : List (String × JsonVal)} {f : String × JsonVal} (hf : f ∈ fs) :
    sizeV f.2 ≤ sizeFs fs := by
  induction fs with
  | nil => cases hf
  | cons x xs ih =>
    obtain ⟨k, v⟩ := x
    cases hf with
    | head => simp [sizeFs]; omega
    | tail _ hm => have := ih hm; simp [sizeFs]; omega

theorem sizeEs_len (es : List JsonVal) : es.length + 1 ≤ sizeEs es := by
  induction es with
  | nil => simp [sizeEs]
  | cons x xs ih => have := sizeV_pos x; simp [sizeEs]; omega

theorem sizeFs_len (fs : List (String × JsonVal)) : fs.length + 1 ≤ sizeFs fs := by
  induction fs with
  | nil => simp [sizeFs]
  | cons x xs ih =>
    obtain ⟨k, v⟩ := x
    have := sizeV_pos v
    simp [sizeFs]
    omega

theorem encodeElems_eq (es : List JsonVal) :
    encodeElems es = es.flatMap (fun e => ',' :: encodeVal e) := by
  induction es with
  | nil => rfl
  | cons e es ih => simp [encodeElems, ih]

theorem encodeFields_eq (fs : List (String × JsonVal)) :
    encodeFields fs = fs.flatMap (fun f => ',' :: encodeField f) := by
  induction fs with
  | nil => rfl
  | cons f fs ih => simp [encodeFields, ih]

theorem encodeVal_cons (v : JsonVal) (h : wfV v = true) :
    ∃ c cs, encodeVal v = c :: cs ∧ c ≠ ']' := by
  cases v with
  | null => exact ⟨'n', _, rfl, by decide⟩
  | bool b =>
    cases b with
    | false => exact ⟨'f', _, rfl, by decide⟩
    | true => exact ⟨'t', _, rfl, by decide⟩
  | num neg ip fp =>
    cases ip with
    | nil => simp [wfV] at h
    | cons d ds =>
      have hd : digitChar d ≠ ']' := by clear h; revert d; decide
      cases neg with
      | true =>
        cases fp with
        | none => exact ⟨'-', (d :: ds).map digitChar, by simp [encodeVal], by decide⟩
        | some ds2 =>
          exact ⟨'-', (d :: ds).map digitChar ++ '.' :: ds2.map digitChar,
            by simp [encodeVal], by decide⟩
      | false =>
        cases fp with
        | none => exact ⟨digitChar d, ds.map digitChar, by simp [encodeVal], hd⟩
        | some ds2 =>
          exact ⟨digitChar d, ds.map digitChar ++ '.' :: ds2.map digitChar,
            by simp [encodeVal], hd⟩
  | str s => exact ⟨'"', _, rfl, by decide⟩
  | arr es =>
    cases es with
    | nil => exact ⟨'[', _, rfl, by decide⟩
    | cons e es => exact ⟨'[', _, rfl, by decide⟩
  | obj fs =>
    cases fs with
    | nil => exact ⟨lbrace, _, rfl, by decide⟩
    | cons f fs => exact ⟨lbrace, _, rfl, by decide⟩

theorem sepLoop_encode {α : Type} (pitem : List Char → Option (α × List Char))
    (encItem : α → List Char) (xs : List α) :
    ∀ (fuel : Nat) (rest : List Char),
      (∀ x ∈ xs, ∀ tail, numSafe tail → pitem (encItem x ++ tail) = some (x, tail)) →
      xs.length < fuel →
      rest.head? ≠ some ',' → numSafe rest →
      sepLoop pitem fuel (xs.flatMap (fun x => ',' :: encItem x) ++ rest) = some (xs, rest) := by
  induction xs with
  | nil =>
    intro fuel rest _ hf hh hns
    cases fuel with
    | zero => omega
    | succ f =>
      rw [sepLoop_succ]
      simp only [List.flatMap_nil, List.nil_append]
      cases rest with
      | nil => exact commaLoop_nil _ _
      | cons c r =>
        refine commaLoop_stop _ _ _ _ ?_
        intro hc
        exact hh (by rw [hc]; rfl)
  | cons x xs ih =>
    intro fuel rest hitems hf hh hns
    cases fuel with
    | zero => simp at hf
    | succ f =>
      rw [sepLoop_succ]
      rw [show (x :: xs).flatMap (fun y => ',' :: encItem y) ++ rest
            = ',' :: (encItem x ++ (xs.flatMap (fun y => ',' :: encItem y) ++ rest)) by simp]
      have hY : numSafe (xs.flatMap (fun y => ',' :: encItem y) ++ rest) := by
        cases xs with
        | nil => simpa using hns
        | cons y ys =>
          rw [show (y :: ys).flatMap (fun z => ',' :: encItem z) ++ rest
                = ',' :: (encItem y ++ ((ys.flatMap (fun z => ',' :: encItem z)) ++ rest)) by simp]
          exact numSafe_cons ',' _ (by decide)
      exact commaLoop_cons _ _ _ _ _ _ _
        (hitems x (by simp) _ hY)
        (ih f rest (fun y hy => hitems y (by simp [hy])) (by simpa using hf) hh hns)

theorem minus_dispatch : ('-' ≠ 'n') ∧ ('-' ≠ 't') ∧ ('-' ≠ 'f') ∧ ('-' ≠ '"')
    ∧ ('-' ≠ '[') ∧ ('-' ≠ lbrace) := by decide

theorem digit_dispatch : ∀ d : Fin 10, (digitChar d ≠ 'n') ∧ (digitChar d ≠ 't')
    ∧ (digitChar d ≠ 'f') ∧ (digitChar d ≠ '"') ∧ (digitChar d ≠ '[')
    ∧ (digitChar d ≠ lbrace) := by decide

theorem head_ne_comma (c : Char) (rest : List Char) (h : c ≠ ',') :
    (c :: rest).head? ≠ some ',' := by
  rw [List.head?_cons]
  intro hc
  rw [Option.some_inj] at hc
  exact absurd hc h

theorem parseVal_encode (fuel : Nat) :
    ∀ (v : JsonVal) (rest : List Char), wfV v = true → sizeV v ≤ fuel → numSafe rest →
      parseVal fuel (encodeVal v ++ rest) = some (v, rest) := by
  induction fuel with
  | zero =>
    intro v rest _ hs _
    exact absurd hs (by have := sizeV_pos v; omega)
  | succ fuel ih =>
    intro v rest hw hs hns
    cases v with
    | null =>
      rw [show encodeVal .null ++ rest = 'n':: 'u':: 'l':: 'l'::rest from rfl]
      exact pv_null fuel rest
    | bool b =>
      cases b with
      | true =>
        rw [show encodeVal (.bool true) ++ rest = 't':: 'r':: 'u':: 'e'::rest from rfl]
        exact pv_true fuel rest
      | false =>
        rw [show encodeVal (.bool false) ++ rest = 'f':: 'a':: 'l':: 's':: 'e'::rest from rfl]
        exact pv_false fuel rest
    | num neg ip fp =>
      have hip : ip ≠ [] := by
        intro hnil
        rw [hnil] at hw
        simp [wfV] at hw
      cases ip with
      | nil => exact absurd rfl hip
      | cons d ds =>
        cases neg with
        | true =>
          cases fp with
          | none =>
            have hshape : encodeVal (.num true (d :: ds) none) ++ rest
                = '-' :: ((d :: ds).map digitChar ++ rest) := by simp [encodeVal]
            rw [hshape, pv_num fuel _ _ minus_dispatch.1 minus_dispatch.2.1
              minus_dispatch.2.2.1 minus_dispatch.2.2.2.1 minus_dispatch.2.2.2.2.1
              minus_dispatch.2.2.2.2.2, ← hshape]
            exact parseNum_encode true (d :: ds) none rest hip hns
          | some ds2 =>
            have hshape : encodeVal (.num true (d :: ds) (some ds2)) ++ rest
                = '-' :: ((d :: ds).map digitChar ++ ('.' :: ds2.map digitChar ++ rest)) := by
              simp [encodeVal]
            rw [hshape, pv_num fuel _ _ minus_dispatch.1 minus_dispatch.2.1
              minus_dispatch.2.2.1 minus_dispatch.2.2.2.1 minus_dispatch.2.2.2.2.1
              minus_dispatch.2.2.2.2.2, ← hshape]
            exact parseNum_encode true (d :: ds) (some ds2) rest hip hns
        | false =>
          cases fp with
          | none =>
            have hshape : encodeVal (.num false (d :: ds) none) ++ rest
                = digitChar d :: (ds.map digitChar ++ rest) := by simp [encodeVal]
            rw [hshape, pv_num fuel _ _ (digit_dispatch d).1 (digit_dispatch d).2.1
              (digit_dispatch d).2.2.1 (digit_dispatch d).2.2.2.1 (digit_dispatch d).2.2.2.2.1
              (digit_dispatch d).2.2.2.2.2, ← hshape]
            exact parseNum_encode false (d :: ds) none rest hip hns
          | some ds2 =>
            have hshape : encodeVal (.num false (d :: ds) (some ds2)) ++ rest
                = digitChar d :: (ds.map digitChar ++ ('.' :: ds2.map digitChar ++ rest)) := by
              simp [encodeVal]
            rw [hshape, pv_num fuel _ _ (digit_dispatch d).1 (digit_dispatch d).2.1
              (digit_dispatch d).2.2.1 (digit_dispatch d).2.2.2.1 (digit_dispatch d).2.2.2.2.1
              (digit_dispatch d).2.2.2.2.2, ← hshape]
            exact parseNum_encode false (d :: ds) (some ds2) rest hip hns
    | str s =>
      rw [show encodeVal (.str s) ++ rest = '"' :: (escapeString s.data ++ ('"' :: rest)) by
        simp [encodeVal]]
      rw [pv_str, parseStringBody_escape]
      simp [mkData]
    | arr es =>
      cases es with
      | nil =>
        rw [show encodeVal (.arr []) ++ rest = '[' :: (']' :: rest) from rfl]
        rw [pv_arr, groupBody_close]
        rfl
      | cons e es =>
        have hwcons : wfEs (e :: es) = true := by simpa [wfV] using hw
        have hwe : wfV e = true := wfEs_mem hwcons (by simp)
        have hwes : wfEs es = true := by
          simp only [wfEs, Bool.and_eq_true] at hwcons
          exact hwcons.2
        have hs' : 1 + sizeV e + sizeEs es ≤ fuel + 1 := by simpa [sizeV] using hs
        have hse : sizeV e ≤ fuel := by have := sizeEs_pos es; omega
        have hses : sizeEs es ≤ fuel := by have := sizeV_pos e; omega
        have hlen : es.length < fuel := by have := sizeEs_len es; omega
        have hnsY : numSafe (encodeElems es ++ (']' :: rest)) := by
          cases es with
          | nil =>
            rw [show encodeElems [] ++ (']' :: rest) = ']' :: rest from rfl]
            exact numSafe_cons ']' _ (by decide)
          | cons e2 es2 =>
            rw [show encodeElems (e2 :: es2) ++ (']' :: rest)
                  = ',' :: (encodeVal e2 ++ (encodeElems es2 ++ (']' :: rest))) by
              simp [encodeElems]]
            exact numSafe_cons ',' _ (by decide)
        have hitem : parseVal fuel (encodeVal e ++ (encodeElems es ++ (']' :: rest)))
            = some (e, encodeElems es ++ (']' :: rest)) := ih e _ hwe hse hnsY
        have hloop : sepLoop (parseVal fuel) fuel (encodeElems es ++ (']' :: rest))
            = some (es, ']' :: rest) := by
          rw [encodeElems_eq]
          exact sepLoop_encode (parseVal fuel) encodeVal es fuel (']' :: rest)
            (fun x hx tail htail =>
              ih x tail (wfEs_mem hwes hx) (le_trans (sizeEs_mem hx) hses) htail)
            hlen (head_ne_comma ']' rest (by decide)) (numSafe_cons ']' _ (by decide))
        obtain ⟨c0, tl0, he0, hc0⟩ := encodeVal_cons e hwe
        have hitem' : parseVal fuel (c0 :: (tl0 ++ (encodeElems es ++ (']' :: rest))))
            = some (e, encodeElems es ++ (']' :: rest)) := by
          rw [← List.cons_append, ← he0]
          exact hitem
        have hg := groupBody_cons ']' (parseVal fuel) (sepLoop (parseVal fuel) fuel)
          c0 (tl0 ++ (encodeElems es ++ (']' :: rest))) (encodeElems es ++ (']' :: rest))
          rest e es hc0 hitem' hloop
        rw [show encodeVal (.arr (e :: es)) ++ rest
              = '[' :: (encodeVal e ++ (encodeElems es ++ (']' :: rest))) by
          simp [encodeVal]]
        rw [pv_arr]
        rw [show encodeVal e ++ (encodeElems es ++ (']' :: rest))
              = c0 :: (tl0 ++ (encodeElems es ++ (']' :: rest))) by rw [he0]; simp]
        rw [hg]
        rfl
    | obj fs =>
      cases fs with
      | nil =>
        rw [show encodeVal (.obj []) ++ rest = lbrace :: (rbrace :: rest) from rfl]
        rw [pv_obj, groupBody_close]
        rfl
      | cons f fs =>
        obtain ⟨k, v⟩ := f
        have hwcons : wfFs ((k, v) :: fs) = true := by simpa [wfV] using hw
        have hwv : wfV v = true := by
          simp only [wfFs, Bool.and_eq_true] at hwcons
          exact hwcons.1
        have hwfs : wfFs fs = true := by
          simp only [wfFs, Bool.and_eq_true] at hwcons
          exact hwcons.2
        have hs' : 1 + sizeV v + sizeFs fs ≤ fuel + 1 := by simpa [sizeV] using hs
        have hsv : sizeV v ≤ fuel := by have := sizeFs_pos fs; omega
        have hsfs : sizeFs fs ≤ fuel := by have := sizeV_pos v; omega
        have hlen : fs.length < fuel := by have := sizeFs_len fs; omega
        have hnsY : numSafe (encodeFields fs ++ (rbrace :: rest)) := by
          cases fs with
          | nil =>
            rw [show encodeFields [] ++ (rbrace :: rest) = rbrace :: rest from rfl]
            exact numSafe_cons rbrace _ (by decide)
          | cons f2 fs2 =>
            rw [show encodeFields (f2 :: fs2) ++ (rbrace :: rest)
                  = ',' :: (encodeField f2 ++ (encodeFields fs2 ++ (rbrace :: rest))) by
              simp [encodeFields]]
            exact numSafe_cons ',' _ (by decide)
        have hitem : parseFieldWith (parseVal fuel)
            (encodeField (k, v) ++ (encodeFields fs ++ (rbrace :: rest)))
            = some ((k, v), encodeFields fs ++ (rbrace :: rest)) :=
          parseFieldWith_encode (parseVal fuel) k v _ (ih v _ hwv hsv hnsY)
        have hloop : sepLoop (parseFieldWith (parseVal fuel)) fuel
            (encodeFields fs ++ (rbrace :: rest)) = some (fs, rbrace :: rest) := by
          rw [encodeFields_eq]
          refine sepLoop_encode (parseFieldWith (parseVal fuel)) encodeField fs fuel
            (rbrace :: rest) ?_ hlen (head_ne_comma rbrace rest (by decide))
            (numSafe_cons rbrace _ (by decide))
          intro x hx tail htail
          obtain ⟨k2, v2⟩ := x
          exact parseFieldWith_encode (parseVal fuel) k2 v2 tail
            (ih v2 tail (wfFs_mem hwfs hx) (le_trans (sizeFs_mem hx) hsfs) htail)
        have hitem' : parseFieldWith (parseVal fuel)
            ('"' :: (escapeString k.data ++ ('"' :: (':' :: (encodeVal v
              ++ (encodeFields fs ++ (rbrace :: rest)))))))
            = some ((k, v), encodeFields fs ++ (rbrace :: rest)) := by
          rw [show ('"' :: (escapeString k.data ++ ('"' :: (':' :: (encodeVal v
                ++ (encodeFields fs ++ (rbrace :: rest)))))))
              = encodeField (k, v) ++ (encodeFields fs ++ (rbrace :: rest)) by
            simp [encodeField]]
          exact hitem
        have hg := groupBody_cons rbrace (parseFieldWith (parseVal fuel))
          (sepLoop (parseFieldWith (parseVal fuel)) fuel)
          '"' (escapeString k.data ++ ('"' :: (':' :: (encodeVal v
            ++ (encodeFields fs ++ (rbrace :: rest))))))
          (encodeFields fs ++ (rbrace :: rest)) rest (k, v) fs (by decide) hitem' hloop
        rw [show encodeVal (.obj ((k, v) :: fs)) ++ rest
              = lbrace :: (encodeField (k, v) ++ (encodeFields fs ++ (rbrace :: rest))) by
          simp [encodeVal]]
        rw [pv_obj]
        rw [show encodeField (k, v) ++ (encodeFields fs ++ (rbrace :: rest))
              = '"' :: (escapeString k.data ++ ('"' :: (':' :: (encodeVal v
                ++ (encodeFields fs ++ (rbrace :: rest)))))) by simp [encodeField]]
        rw [hg]
        rfl

theorem size_le_len (fuel : Nat) :
    (∀ v, sizeV v ≤ fuel → wfV v = true → sizeV v ≤ (encodeVal v).length) ∧
    (∀ es, sizeEs es ≤ fuel → wfEs es = true → sizeEs es ≤ (encodeElems es).length + 1) ∧
    (∀ fs, sizeFs fs ≤ fuel → wfFs fs = true → sizeFs fs ≤ (encodeFields fs).length + 1) := by
  induction fuel with
  | zero =>
    refine ⟨?_, ?_, ?_⟩
    · intro v hs _; exact absurd hs (by have := sizeV_pos v; omega)
    · intro es hs _; exact absurd hs (by have := sizeEs_pos es; omega)
    · intro fs hs _; exact absurd hs (by have := sizeFs_pos fs; omega)
  | succ fuel ih =>
    obtain ⟨ihv, ihe, ihf⟩ := ih
    have hv : ∀ v, sizeV v ≤ fuel + 1 → wfV v = true → sizeV v ≤ (encodeVal v).length := by
      intro v hs hw
      cases v with
      | null => simp [sizeV, encodeVal, kwNull_length]
      | bool b => cases b <;> simp [sizeV, encodeVal, kwTrue_length, kwFalse_length]
      | num neg ip fp =>
        cases ip with
        | nil => simp [wfV] at hw
        | cons d ds =>
          cases neg <;> cases fp <;> (simp [sizeV, encodeVal]; try omega)
      | str s => simp [sizeV, encodeVal]; try omega
      | arr es =>
        cases es with
        | nil => simp [sizeV, encodeVal]
        | cons e es =>
          have hs' : 1 + sizeV e + sizeEs es ≤ fuel + 1 := by simpa [sizeV] using hs
          have hwc : wfEs (e :: es) = true := by simpa [wfV] using hw
          simp only [wfEs, Bool.and_eq_true] at hwc
          have h1 := ihv e (by have := sizeEs_pos es; omega) hwc.1
          have h2 := ihe es (by have := sizeV_pos e; omega) hwc.2
          simp [sizeV, encodeVal]
          omega
      | obj fs =>
        cases fs with
        | nil => simp [sizeV, encodeVal]
        | cons f fs =>
          obtain ⟨k, v2⟩ := f
          have hs' : 1 + sizeV v2 + sizeFs fs ≤ fuel + 1 := by simpa [sizeV] using hs
          have hwc : wfFs ((k, v2) :: fs) = true := by simpa [wfV] using hw
          simp only [wfFs, Bool.and_eq_true] at hwc
          have h1 := ihv v2 (by have := sizeFs_pos fs; omega) hwc.1
          have h2 := ihf fs (by have := sizeV_pos v2; omega) hwc.2
          simp [sizeV, encodeVal, encodeField]
          omega
    refine ⟨hv, ?_, ?_⟩
    · intro es hs hw
      cases es with
      | nil => simp [sizeEs, encodeElems]
      | cons e es =>
        have hs' : 1 + sizeV e + sizeEs es ≤ fuel + 1 := by simpa [sizeEs] using hs
        simp only [wfEs, Bool.and_eq_true] at hw
        have h1 := ihv e (by have := sizeEs_pos es; omega) hw.1
        have h2 := ihe es (by have := sizeV_pos e; omega) hw.2
        simp [sizeEs, encodeElems]
        omega
    · intro fs hs hw
      cases fs with
      | nil => simp [sizeFs, encodeFields]
      | cons f fs =>
        obtain ⟨k, v2⟩ := f
        have hs' : 1 + sizeV v2 + sizeFs fs ≤ fuel + 1 := by simpa [sizeFs] using hs
        simp only [wfFs, Bool.and_eq_true] at hw
        have h1 := ihv v2 (by have := sizeFs_pos fs; omega) hw.1
        have h2 := ihf fs (by have := sizeV_pos v2; omega) hw.2
        simp [sizeFs, encodeFields, encodeField]
        omega

theorem decode_encode (v : JsonVal) (h : wfV v = true) : decode (encode v) = some v := by
  have hfuel : sizeV v ≤ (encodeVal v).length + 1 :=
    le_trans ((size_le_len (sizeV v)).1 v le_rfl h) (by omega)
  have hp := parseVal_encode ((encodeVal v).length + 1) v [] h hfuel trivial
  rw [List.append_nil] at hp
  unfold decode encode
  rw [show (String.mk (encodeVal v)).data = encodeVal v from rfl, hp]


theorem selectRow_eq_some {t : List Row} {c u : Int} {r : Row}
    (h : selectRow t c u = some r) : r ∈ t ∧ r.chat = c ∧ r.user = u := by
  have hm := List.mem_of_find?_eq_some h
  have hp := List.find?_some h
  simp only [Bool.and_eq_true, beq_iff_eq] at hp
  exact ⟨hm, hp.1, hp.2⟩

theorem selectRow_isSome_of_mem {t : List Row} {c u : Int} {r : Row}
    (hr : r ∈ t) (hc : r.chat = c) (hu : r.user = u) : (selectRow t c u).isSome := by
  rw [selectRow, List.find?_isSome]
  exact ⟨r, hr, by simp [hc, hu]⟩

theorem selectRow_eq_none {t : List Row} {c u : Int}
    (h : ∀ r ∈ t, ¬(r.chat = c ∧ r.user = u)) : selectRow t c u = none := by
  rw [selectRow, List.find?_eq_none]
  intro r hr
  have := h r hr
  simp only [Bool.and_eq_true, beq_iff_eq]
  tauto

theorem deleteRows_mem {t : List Row} {c u : Int} {r : Row} :
    r ∈ deleteRows t c u ↔ r ∈ t ∧ ¬(r.chat = c ∧ r.user = u) := by
  rw [deleteRows, List.mem_filter]
  simp only [Bool.not_eq_eq_eq_not, Bool.not_true, Bool.and_eq_false_iff,
    beq_eq_false_iff_ne, ne_eq, Bool.and_eq_true, beq_iff_eq]
  tauto

theorem deleteRows_eq_self {t : List Row} {c u : Int}
    (h : ∀ r ∈ t, r.user = u → r.chat ≠ c) : deleteRows t c u = t := by
  rw [deleteRows, List.filter_eq_self]
  intro r hr
  simp only [Bool.not_eq_eq_eq_not, Bool.not_true, Bool.and_eq_false_iff]
  by_cases hu : r.user = u
  · left; simp [beq_iff_eq]; exact h r hr hu
  · right; simp [beq_iff_eq]; exact hu

theorem upsert_user_val {t : List Row} {u c : Int} {v : String} :
    ∀ r ∈ upsertRow t u c v, r.user = u → r.val = v := by
  intro r hr hu
  rw [upsertRow] at hr
  by_cases hany : t.any (fun r => r.user == u)
  · rw [if_pos hany] at hr
    obtain ⟨a, ha, hfa⟩ := List.mem_map.mp hr
    by_cases hau : a.user = u
    · rw [if_pos (by simpa [beq_iff_eq] using hau)] at hfa
      rw [← hfa]
    · rw [if_neg (by simpa [beq_iff_eq] using hau)] at hfa
      rw [← hfa] at hu
      exact absurd hu hau
  · rw [if_neg hany] at hr
    rcases List.mem_append.mp hr with hmem | hlast
    · exfalso
      exact hany (List.any_eq_true.mpr ⟨r, hmem, by simpa [beq_iff_eq] using hu⟩)
    · have : r = ⟨u, c, v⟩ := by simpa using hlast
      rw [this]

theorem upsert_mem_user (t : List Row) (u c : Int) (v : String) :
    ∃ r ∈ upsertRow t u c v, r.user = u := by
  rw [upsertRow]
  by_cases hany : t.any (fun r => r.user == u)
  · obtain ⟨a, ha, hau⟩ := List.any_eq_true.mp hany
    rw [if_pos hany]
    refine ⟨{ a with val := v }, List.mem_map.mpr ⟨a, ha, ?_⟩, by simpa [beq_iff_eq] using hau⟩
    rw [if_pos hau]
  · rw [if_neg hany]
    exact ⟨⟨u, c, v⟩, List.mem_append.mpr (Or.inr (by simp)), rfl⟩

theorem upsert_preserves {t : List Row} {u c : Int} {v : String} :
    ∀ r ∈ t, ∃ r' ∈ upsertRow t u c v, r'.user = r.user ∧ r'.chat = r.chat := by
  intro r hr
  rw [upsertRow]
  by_cases hany : t.any (fun r => r.user == u)
  · rw [if_pos hany]
    refine ⟨if r.user == u then { r with val := v } else r,
      List.mem_map.mpr ⟨r, hr, rfl⟩, ?_⟩
    by_cases hu : r.user = u
    · rw [if_pos (by simpa [beq_iff_eq] using hu)]
      exact ⟨rfl, rfl⟩
    · rw [if_neg (by simpa [beq_iff_eq] using hu)]
      exact ⟨rfl, rfl⟩
  · rw [if_neg hany]
    exact ⟨r, List.mem_append.mpr (Or.inl hr), rfl, rfl⟩

theorem usersNodup_inj {t : List Row} (h : usersNodup t) {a b : Row}
    (ha : a ∈ t) (hb : b ∈ t) (hu : a.user = b.user) : a = b :=
  List.inj_on_of_nodup_map h ha hb hu

/-- C6: the claim says errors raised during reset_all (e.g. a table already absent
after a prior reset_all) are tolerated and reset_all succeeds without raising.
The code issues plain DROP TABLE statements with no IF EXISTS and no handler, so
after a full reset both backends propagate the missing-table error instead of
succeeding: the claim describes the spec's intent, the code does not implement it. -/
theorem c6_reset_all_error_evaluation :
    SQLiteStorage.reset_all emptyStore true = .ok ⟨none, none, none⟩ ∧
    SQLiteStorage.reset_all ⟨none, none, none⟩ true = .error .noSuchTable ∧
    SQLiteStorage.reset_all ⟨none, none, none⟩ false = .error .noSuchTable ∧
    PGStorage.reset_all emptyStore true = .ok ⟨none, none, none⟩ ∧
    PGStorage.reset_all ⟨none, none, none⟩ true = .error .noSuchTable ∧
    PGStorage.reset_all ⟨none, none, none⟩ false = .error .noSuchTable :=
  ⟨rfl, rfl, rfl, rfl, rfl, rfl⟩

/-- C1 counterexample: from the same logical contents (one state row stored with the
empty string as state, reachable by set_state on both backends from an empty store),
get_state returns the empty string on the SQLite backend but falls back to the
default on the Postgres backend, because the Postgres variant tests the fetched
value for Python truthiness and the empty string is falsy. -/
theorem c1_counterexample :
    SQLiteStorage.set_state emptyStore (some 1) (some 1) (some "")
        = .ok ⟨some [⟨1, 1, ""⟩], some [], some []⟩ ∧
    PGStorage.set_state emptyStore (some 1) (some 1) (some "")
        = .ok ⟨some [⟨1, 1, ""⟩], some [], some []⟩ ∧
    SQLiteStorage.get_state ⟨some [⟨1, 1, ""⟩], some [], some []⟩ (some 1) (some 1) (some "D")
        = .ok (some "") ∧
    PGStorage.get_state ⟨some [⟨1, 1, ""⟩], some [], some []⟩ (some 1) (some 1) (some "D")
        = .ok (some "D") ∧
    (Except.ok (some "") : Except DBErr (Option String)) ≠ .ok (some "D") :=
  ⟨rfl, rfl, rfl, rfl, by simp⟩

/-- C4: reset_all with full=False removes all state rows (the state table is dropped)
while leaving the data and bucket tables untouched; with full=True all three tables
are removed, on both backends. -/
theorem c4_reset_all (st : DBState) (ts td tb : List Row)
    (hs : st.stateTbl = some ts) (hd : st.dataTbl = some td) (hb : st.bucketTbl = some tb) :
    SQLiteStorage.reset_all st false = .ok ⟨none, st.dataTbl, st.bucketTbl⟩ ∧
    PGStorage.reset_all st false = .ok ⟨none, st.dataTbl, st.bucketTbl⟩ ∧
    SQLiteStorage.reset_all st true = .ok ⟨none, none, none⟩ ∧
    PGStorage.reset_all st true = .ok ⟨none, none, none⟩ := by
  obtain ⟨s1, s2, s3⟩ := st
  simp only at hs hd hb
  subst hs; subst hd; subst hb
  exact ⟨rfl, rfl, rfl, rfl⟩

/-- C2: set_state with a null state deletes exactly the rows whose stored chat AND
user both equal the given key; when the stored row for that user carries a different
chat value the delete is a silent no-op and the state table is unchanged. -/
theorem c2_set_state_null_delete (st : DBState) (t : List Row) (c u : Int)
    (hst : st.stateTbl = some t) :
    SQLiteStorage.set_state st (some c) (some u) none
        = .ok { st with stateTbl := some (deleteRows t c u) } ∧
    PGStorage.set_state st (some c) (some u) none
        = .ok { st with stateTbl := some (deleteRows t c u) } ∧
    (∀ r, r ∈ deleteRows t c u ↔ (r ∈ t ∧ ¬(r.chat = c ∧ r.user = u))) ∧
    ((∀ r ∈ t, r.user = u → r.chat ≠ c) → deleteRows t c u = t) := by
  refine ⟨?_, ?_, fun r => deleteRows_mem, deleteRows_eq_self⟩
  · simp [SQLiteStorage.set_state, checkAddress, hst, getTable]
  · simp [PGStorage.set_state, checkAddress, hst, getTable]

/-- C7: get_states_list returns exactly the (chat, user) pairs of the rows of the
state table, chat first and user second, on both backends; in particular after
setting a state for (chat 1, user 100) and (chat 2, user 200) from an empty store it
returns exactly [(1, 100), (2, 200)]. -/
theorem c7_get_states_list (st : DBState) (t : List Row) (hst : st.stateTbl = some t) :
    SQLiteStorage.get_states_list st = .ok (t.map (fun r => (r.chat, r.user))) ∧
    PGStorage.get_states_list st = .ok (t.map (fun r => (r.chat, r.user))) ∧
    (∀ c u : Int, (c, u) ∈ t.map (fun r => (r.chat, r.user))
        ↔ ∃ r ∈ t, r.chat = c ∧ r.user = u) ∧
    (∃ st1 st2 : DBState,
      SQLiteStorage.set_state emptyStore (some 1) (some 100) (some "s1") = .ok st1 ∧
      SQLiteStorage.set_state st1 (some 2) (some 200) (some "s2") = .ok st2 ∧
      SQLiteStorage.get_states_list st2 = .ok [(1, 100), (2, 200)] ∧
      PGStorage.set_state emptyStore (some 1) (some 100) (some "s1") = .ok st1 ∧
      PGStorage.set_state st1 (some 2) (some 200) (some "s2") = .ok st2 ∧
      PGStorage.get_states_list st2 = .ok [(1, 100), (2, 200)]) := by
  refine ⟨?_, ?_, ?_, ?_⟩
  · simp [SQLiteStorage.get_states_list, hst, getTable]
  · simp [PGStorage.get_states_list, hst, getTable]
  · intro c u
    constructor
    · intro hmem
      obtain ⟨r, hr, heq⟩ := List.mem_map.mp hmem
      exact ⟨r, hr, congrArg Prod.fst heq, congrArg Prod.snd heq⟩
    · rintro ⟨r, hr, h1, h2⟩
      exact List.mem_map.mpr ⟨r, hr, by rw [h1, h2]⟩
  · exact ⟨⟨some [⟨100, 1, "s1"⟩], some [], some []⟩,
      ⟨some [⟨100, 1, "s1"⟩, ⟨200, 2, "s2"⟩], some [], some []⟩,
      rfl, rfl, rfl, rfl, rfl, rfl⟩

theorem upsert_mem_user_chat (t : List Row) (u c : Int) (v : String)
    (hcons : ∀ r ∈ t, r.user = u → r.chat = c) :
    ∃ r ∈ upsertRow t u c v, r.user = u ∧ r.chat = c := by
  rw [upsertRow]
  by_cases hany : t.any (fun r => r.user == u)
  · obtain ⟨a, ha, hau⟩ := List.any_eq_true.mp hany
    have hau' : a.user = u := by simpa [beq_iff_eq] using hau
    rw [if_pos hany]
    refine ⟨{ a with val := v }, List.mem_map.mpr ⟨a, ha, ?_⟩, hau', hcons a ha hau'⟩
    rw [if_pos (by simpa [beq_iff_eq] using hau')]
  · rw [if_neg hany]
    exact ⟨⟨u, c, v⟩, List.mem_append.mpr (Or.inr (by simp)), rfl, rfl⟩

/-- C3: set_bucket always upserts, even for an empty or null bucket: it succeeds, the
key's user gains or keeps a row, and every pre-existing bucket row survives (no row is
ever deleted); set_data with an empty or null mapping instead deletes the data row
for the key, on both backends. -/
theorem c3_bucket_upsert_data_delete (st : DBState) (tb td : List Row) (c u : Int)
    (b d : Option Jobj)
    (hb : st.bucketTbl = some tb) (hd : st.dataTbl = some td)
    (hempty : d = none ∨ d = some []) :
    SQLiteStorage.set_bucket st (some c) (some u) b
        = .ok { st with bucketTbl := some (upsertRow tb u c (encode (bucketJson b))) } ∧
    PGStorage.set_bucket st (some c) (some u) b
        = .ok { st with bucketTbl := some (upsertRow tb u c (encode (bucketJson b))) } ∧
    (∃ r ∈ upsertRow tb u c (encode (bucketJson b)), r.user = u) ∧
    (∀ r ∈ tb, ∃ r' ∈ upsertRow tb u c (encode (bucketJson b)),
        r'.user = r.user ∧ r'.chat = r.chat) ∧
    SQLiteStorage.set_data st (some c) (some u) d
        = .ok { st with dataTbl := some (deleteRows td c u) } ∧
    PGStorage.set_data st (some c) (some u) d
        = .ok { st with dataTbl := some (deleteRows td c u) } ∧
    (∀ r ∈ deleteRows td c u, ¬(r.chat = c ∧ r.user = u)) := by
  have hfalse : pyTruthyDict d = false := by
    rcases hempty with h | h <;> rw [h] <;> rfl
  refine ⟨?_, ?_, upsert_mem_user tb u c _, upsert_preserves, ?_, ?_, ?_⟩
  · simp [SQLiteStorage.set_bucket, checkAddress, hb, getTable]
  · simp [PGStorage.set_bucket, checkAddress, hb, getTable]
  · simp [SQLiteStorage.set_data, checkAddress, hd, getTable, hfalse]
  · simp [PGStorage.set_data, checkAddress, hd, getTable, hfalse]
  · intro r hr
    exact (deleteRows_mem.mp hr).2

/-- C9: when a user already has a state row stored under chat c1, set_state with a
non-null state and a different chat c2 updates only the state column: the stored chat
keeps the value c1, so a following get_state with chat c2 misses the row and returns
the default, on both backends. -/
theorem c9_set_state_stale_chat (st : DBState) (t : List Row) (c1 c2 u : Int)
    (s0 s d : String)
    (hst : st.stateTbl = some t) (hnd : usersNodup t)
    (hrow : (⟨u, c1, s0⟩ : Row) ∈ t) (hne : c1 ≠ c2) :
    ∃ t', SQLiteStorage.set_state st (some c2) (some u) (some s)
        = .ok { st with stateTbl := some t' } ∧
      PGStorage.set_state st (some c2) (some u) (some s)
        = .ok { st with stateTbl := some t' } ∧
      (⟨u, c1, s⟩ : Row) ∈ t' ∧
      SQLiteStorage.get_state { st with stateTbl := some t' } (some c2) (some u) (some d)
        = .ok (some d) ∧
      PGStorage.get_state { st with stateTbl := some t' } (some c2) (some u) (some d)
        = .ok (some d) := by
  refine ⟨upsertRow t u c2 (resolveStateStr s), ?_, ?_, ?_, ?_, ?_⟩
  · simp [SQLiteStorage.set_state, checkAddress, hst, getTable]
  · simp [PGStorage.set_state, checkAddress, hst, getTable]
  · have hany : t.any (fun r => r.user == u) = true :=
      List.any_eq_true.mpr ⟨⟨u, c1, s0⟩, hrow, by simp⟩
    rw [upsertRow, if_pos hany]
    refine List.mem_map.mpr ⟨⟨u, c1, s0⟩, hrow, ?_⟩
    simp [resolveStateStr]
  · have hsel : ∀ v : String, selectRow (upsertRow t u c2 v) c2 u = none := by
      intro v
      apply selectRow_eq_none
      intro r hr hcontra
      rw [upsertRow] at hr
      have hany : t.any (fun r => r.user == u) = true :=
        List.any_eq_true.mpr ⟨⟨u, c1, s0⟩, hrow, by simp⟩
      rw [if_pos hany] at hr
      obtain ⟨a, ha, hfa⟩ := List.mem_map.mp hr
      by_cases hau : a.user = u
      · have haeq : a = ⟨u, c1, s0⟩ := usersNodup_inj hnd ha hrow (by simpa using hau)
        rw [if_pos (by simpa [beq_iff_eq] using hau)] at hfa
        rw [haeq] at hfa
        rw [← hfa] at hcontra
        exact hne hcontra.1
      · rw [if_neg (by simpa [beq_iff_eq] using hau)] at hfa
        rw [← hfa] at hcontra
        exact hau hcontra.2
    simp [SQLiteStorage.get_state, checkAddress, getTable, hsel, resolveState,
      resolveStateStr, Bind.bind, Except.bind, pure, Except.pure]
  · have hsel : ∀ v : String, selectRow (upsertRow t u c2 v) c2 u = none := by
      intro v
      apply selectRow_eq_none
      intro r hr hcontra
      rw [upsertRow] at hr
      have hany : t.any (fun r => r.user == u) = true :=
        List.any_eq_true.mpr ⟨⟨u, c1, s0⟩, hrow, by simp⟩
      rw [if_pos hany] at hr
      obtain ⟨a, ha, hfa⟩ := List.mem_map.mp hr
      by_cases hau : a.user = u
      · have haeq : a = ⟨u, c1, s0⟩ := usersNodup_inj hnd ha hrow (by simpa using hau)
        rw [if_pos (by simpa [beq_iff_eq] using hau)] at hfa
        rw [haeq] at hfa
        rw [← hfa] at hcontra
        exact hne hcontra.1
      · rw [if_neg (by simpa [beq_iff_eq] using hau)] at hfa
        rw [← hfa] at hcontra
        exact hau hcontra.2
    simp [PGStorage.get_state, checkAddress, getTable, hsel, pyTruthyStr, resolveState,
      resolveStateStr, Bind.bind, Except.bind, pure, Except.pure]

theorem encode_obj_ne_empty (m : Jobj) : encode (.obj m) ≠ "" := by
  cases m with
  | nil =>
    intro hcontra
    have := congrArg String.data hcontra
    simp [encode, encodeVal] at this
  | cons f fs =>
    simp only [encode, encodeVal]
    intro hcontra
    have : (lbrace :: (encodeField f ++ encodeFields fs ++ [rbrace])) = [] := by
      have := congrArg String.data hcontra
      simpa using this
    simp at this

/-- C10: set_bucket with a null bucket stores the serialized encoding of null
("null"), and a following get_bucket for the same key decodes it and returns the
null value rather than a mapping and rather than the supplied default, on both
backends (stated for keys whose stored chat is consistent with the given one). -/
theorem c10_set_bucket_null (st : DBState) (t : List Row) (c u : Int) (dflt : Jobj)
    (hb : st.bucketTbl = some t)
    (hcons : ∀ r ∈ t, r.user = u → r.chat = c) :
    ∃ t', SQLiteStorage.set_bucket st (some c) (some u) none
        = .ok { st with bucketTbl := some t' } ∧
      PGStorage.set_bucket st (some c) (some u) none
        = .ok { st with bucketTbl := some t' } ∧
      (∃ r ∈ t', r.user = u ∧ r.val = encode .null) ∧
      SQLiteStorage.get_bucket { st with bucketTbl := some t' } (some c) (some u) (some dflt)
        = .ok .null ∧
      PGStorage.get_bucket { st with bucketTbl := some t' } (some c) (some u) (some dflt)
        = .ok .null := by
  refine ⟨upsertRow t u c (encode (bucketJson none)), ?_, ?_, ?_, ?_, ?_⟩
  · simp [SQLiteStorage.set_bucket, checkAddress, hb, getTable]
  · simp [PGStorage.set_bucket, checkAddress, hb, getTable]
  · obtain ⟨r, hr, hru, _⟩ := upsert_mem_user_chat t u c (encode (bucketJson none)) hcons
    exact ⟨r, hr, hru, upsert_user_val r hr hru⟩
  · obtain ⟨r, hr, hru, hrc⟩ := upsert_mem_user_chat t u c (encode (bucketJson none)) hcons
    have hsome := selectRow_isSome_of_mem hr hrc hru
    obtain ⟨rf, hrf⟩ := Option.isSome_iff_exists.mp hsome
    obtain ⟨hrfmem, hrfc, hrfu⟩ := selectRow_eq_some hrf
    have hrfval : rf.val = encode (bucketJson none) := upsert_user_val rf hrfmem hrfu
    have hdec : decode rf.val = some .null := by
      rw [hrfval]
      exact decode_encode .null rfl
    simp [SQLiteStorage.get_bucket, checkAddress, getTable, hrf, hdec,
      Bind.bind, Except.bind, pure, Except.pure]
  · obtain ⟨r, hr, hru, hrc⟩ := upsert_mem_user_chat t u c (encode (bucketJson none)) hcons
    have hsome := selectRow_isSome_of_mem hr hrc hru
    obtain ⟨rf, hrf⟩ := Option.isSome_iff_exists.mp hsome
    obtain ⟨hrfmem, hrfc, hrfu⟩ := selectRow_eq_some hrf
    have hrfval : rf.val = encode (bucketJson none) := upsert_user_val rf hrfmem hrfu
    have hnonempty : rf.val ≠ "" := by
      rw [hrfval]
      intro hcontra
      have := congrArg String.data hcontra
      simp [encode, encodeVal, bucketJson, kwNull] at this
    have hdec : decode rf.val = some .null := by
      rw [hrfval]
      exact decode_encode .null rfl
    simp [PGStorage.get_bucket, checkAddress, getTable, hrf, hdec, pyTruthyStr, hnonempty,
      Bind.bind, Except.bind, pure, Except.pure]

/-- C5: update_data reads the current mapping for the key (the empty mapping when the
row is absent), shallow-merges the partial mapping and then the keyword overrides on
top, and writes the merged mapping back; in particular with stored data
a=1, b=2, updating with b=3, c=4 yields stored data a=1, b=3, c=4. -/
theorem c5_update_data (st : DBState) (t : List Row) (c u : Int) (r0 : Row)
    (m0 part kwargs : Jobj)
    (hd : st.dataTbl = some t)
    (hsel : selectRow t c u = some r0)
    (hval : r0.val = encode (.obj m0))
    (hwf : wfFs m0 = true)
    (hne : (dictUpdate (dictUpdate m0 part) kwargs).isEmpty = false) :
    SQLiteStorage.update_data st (some c) (some u) (some part) kwargs
        = .ok { st with dataTbl := some (upsertRow t u c
            (encode (.obj (dictUpdate (dictUpdate m0 part) kwargs)))) } ∧
    PGStorage.update_data st (some c) (some u) (some part) kwargs
        = .ok { st with dataTbl := some (upsertRow t u c
            (encode (.obj (dictUpdate (dictUpdate m0 part) kwargs)))) } ∧
    (∀ (st2 : DBState) (t2 : List Row) (c2 u2 : Int) (part2 kwargs2 : Jobj),
      st2.dataTbl = some t2 → selectRow t2 c2 u2 = none →
      SQLiteStorage.update_data st2 (some c2) (some u2) (some part2) kwargs2
        = SQLiteStorage.set_data st2 (some c2) (some u2)
            (some (dictUpdate (dictUpdate [] part2) kwargs2))) ∧
    (SQLiteStorage.update_data
        ⟨some [], some [⟨100, 1, encode (.obj [("a", .num false [1] none),
          ("b", .num false [2] none)])⟩], some []⟩
        (some 1) (some 100)
        (some [("b", .num false [3] none), ("c", .num false [4] none)]) []
      = .ok ⟨some [], some [⟨100, 1, encode (.obj [("a", .num false [1] none),
          ("b", .num false [3] none), ("c", .num false [4] none)])⟩], some []⟩ ∧
    SQLiteStorage.get_data
        ⟨some [], some [⟨100, 1, encode (.obj [("a", .num false [1] none),
          ("b", .num false [3] none), ("c", .num false [4] none)])⟩], some []⟩
        (some 1) (some 100) none
      = .ok (.obj [("a", .num false [1] none), ("b", .num false [3] none),
          ("c", .num false [4] none)])) := by
  have hobj : wfV (.obj m0) = true := by simpa [wfV] using hwf
  have hdec : decode (encode (.obj m0)) = some (.obj m0) := decode_encode _ hobj
  have hvaldec : decode r0.val = some (.obj m0) := by rw [hval]; exact hdec
  have hvalne : r0.val ≠ "" := by rw [hval]; exact encode_obj_ne_empty m0
  refine ⟨?_, ?_, ?_, rfl, rfl⟩
  · have hget : SQLiteStorage.get_data st (some c) (some u) (some []) = .ok (.obj m0) := by
      simp [SQLiteStorage.get_data, checkAddress, hd, getTable, hsel, hvaldec,
        Bind.bind, Except.bind, pure, Except.pure]
    simp [SQLiteStorage.update_data, hget, SQLiteStorage.set_data, checkAddress, hd,
      getTable, pyTruthyDict, hne, Bind.bind, Except.bind, pure, Except.pure]
  · have hget : PGStorage.get_data st (some c) (some u) (some []) = .ok (.obj m0) := by
      simp [PGStorage.get_data, checkAddress, hd, getTable, hsel, hvaldec, pyTruthyStr,
        hvalne, Bind.bind, Except.bind, pure, Except.pure]
    simp [PGStorage.update_data, hget, PGStorage.set_data, checkAddress, hd,
      getTable, pyTruthyDict, hne, Bind.bind, Except.bind, pure, Except.pure]
  · intro st2 t2 c2 u2 part2 kwargs2 hd2 hsel2
    have hget : SQLiteStorage.get_data st2 (some c2) (some u2) (some []) = .ok (.obj []) := by
      simp [SQLiteStorage.get_data, checkAddress, hd2, getTable, hsel2, pyDictOr,
        Bind.bind, Except.bind, pure, Except.pure]
    simp [SQLiteStorage.update_data, hget, Bind.bind, Except.bind, pure, Except.pure]

/-- C8: the serialization pair used by the store round-trips every well-formed
JSON-compatible value (null, booleans, decimal numbers, strings, arrays, objects,
arbitrarily nested): decode (encode v) = v; consequently set_data followed by
get_data on the same key returns the stored mapping, on both backends. -/
theorem c8_serialization_roundtrip (v : JsonVal) (m : Jobj) (st : DBState) (t : List Row)
    (c u : Int) (hwv : wfV v = true) (hwm : wfFs m = true) (hmne : m.isEmpty = false)
    (hd : st.dataTbl = some t) (hcons : ∀ r ∈ t, r.user = u → r.chat = c) :
    decode (encode v) = some v ∧
    ∃ st', SQLiteStorage.set_data st (some c) (some u) (some m) = .ok st' ∧
      PGStorage.set_data st (some c) (some u) (some m) = .ok st' ∧
      SQLiteStorage.get_data st' (some c) (some u) none = .ok (.obj m) ∧
      PGStorage.get_data st' (some c) (some u) none = .ok (.obj m) := by
  refine ⟨decode_encode v hwv,
    { st with dataTbl := some (upsertRow t u c (encode (.obj m))) }, ?_, ?_, ?_, ?_⟩
  · simp [SQLiteStorage.set_data, checkAddress, hd, getTable, pyTruthyDict, hmne,
      Bind.bind, Except.bind, pure, Except.pure]
  · simp [PGStorage.set_data, checkAddress, hd, getTable, pyTruthyDict, hmne,
      Bind.bind, Except.bind, pure, Except.pure]
  · obtain ⟨r, hr, hru, hrc⟩ := upsert_mem_user_chat t u c (encode (.obj m)) hcons
    have hsome := selectRow_isSome_of_mem hr hrc hru
    obtain ⟨rf, hrf⟩ := Option.isSome_iff_exists.mp hsome
    obtain ⟨hrfmem, hrfc, hrfu⟩ := selectRow_eq_some hrf
    have hrfval : rf.val = encode (.obj m) := upsert_user_val rf hrfmem hrfu
    have hobj : wfV (.obj m) = true := by simpa [wfV] using hwm
    have hdec : decode rf.val = some (.obj m) := by
      rw [hrfval]
      exact decode_encode _ hobj
    simp [SQLiteStorage.get_data, checkAddress, getTable, hrf, hdec,
      Bind.bind, Except.bind, pure, Except.pure]
  · obtain ⟨r, hr, hru, hrc⟩ := upsert_mem_user_chat t u c (encode (.obj m)) hcons
    have hsome := selectRow_isSome_of_mem hr hrc hru
    obtain ⟨rf, hrf⟩ := Option.isSome_iff_exists.mp hsome
    obtain ⟨hrfmem, hrfc, hrfu⟩ := selectRow_eq_some hrf
    have hrfval : rf.val = encode (.obj m) := upsert_user_val rf hrfmem hrfu
    have hobj : wfV (.obj m) = true := by simpa [wfV] using hwm
    have hdec : decode rf.val = some (.obj m) := by
      rw [hrfval]
      exact decode_encode _ hobj
    have hvalne : rf.val ≠ "" := by rw [hrfval]; exact encode_obj_ne_empty m
    simp [PGStorage.get_data, checkAddress, getTable, hrf, hdec, pyTruthyStr, hvalne,
      Bind.bind, Except.bind, pure, Except.pure]

/-- C1 (amended): with the reachability-irrelevant exception of stores holding an
empty-string text value (where get_state/get_data/get_bucket diverge through Python
truthiness), every operation produces identical observable results on the SQLite and
Postgres backends given the same inputs and the same logical table contents: under
the hypothesis that all stored text values are nonempty, all ten operations agree
on their result and resulting table contents. -/
theorem c1_backend_equivalence (st : DBState) (h : textsNonempty st)
    (chat user : Option Int) (state default : Option String)
    (data bucket ddefault : Option Jobj) (kwargs : Jobj) (full : Bool) :
    SQLiteStorage.set_state st chat user state = PGStorage.set_state st chat user state ∧
    SQLiteStorage.get_state st chat user default
      = PGStorage.get_state st chat user default ∧
    SQLiteStorage.set_data st chat user data = PGStorage.set_data st chat user data ∧
    SQLiteStorage.get_data st chat user ddefault
      = PGStorage.get_data st chat user ddefault ∧
    SQLiteStorage.update_data st chat user data kwargs
      = PGStorage.update_data st chat user data kwargs ∧
    SQLiteStorage.set_bucket st chat user bucket
      = PGStorage.set_bucket st chat user bucket ∧
    SQLiteStorage.get_bucket st chat user ddefault
      = PGStorage.get_bucket st chat user ddefault ∧
    SQLiteStorage.update_bucket st chat user bucket kwargs
      = PGStorage.update_bucket st chat user bucket kwargs ∧
    SQLiteStorage.has_bucket = PGStorage.has_bucket ∧
    SQLiteStorage.reset_all st full = PGStorage.reset_all st full ∧
    SQLiteStorage.get_states_list st = PGStorage.get_states_list st := by
  have hget_state : SQLiteStorage.get_state st chat user default
      = PGStorage.get_state st chat user default := by
    unfold SQLiteStorage.get_state PGStorage.get_state
    cases hca : checkAddress chat user with
    | none => rfl
    | some cu =>
      obtain ⟨c, u⟩ := cu
      cases hst : st.stateTbl with
      | none => rfl
      | some t =>
        simp only [getTable, Bind.bind, Except.bind]
        cases hsel : selectRow t c u with
        | none => simp [hsel, pyTruthyStr]
        | some r =>
          have hrmem := (selectRow_eq_some hsel).1
          have hrne : r.val ≠ "" := by
            have h1 := h.1
            rw [hst] at h1
            exact h1 r hrmem
          simp [hsel, pyTruthyStr, hrne, pure, Except.pure]
  have hget_data : ∀ dflt : Option Jobj, SQLiteStorage.get_data st chat user dflt
      = PGStorage.get_data st chat user dflt := by
    intro dflt
    unfold SQLiteStorage.get_data PGStorage.get_data
    cases hca : checkAddress chat user with
    | none => rfl
    | some cu =>
      obtain ⟨c, u⟩ := cu
      cases hst : st.dataTbl with
      | none => rfl
      | some t =>
        simp only [getTable, Bind.bind, Except.bind]
        cases hsel : selectRow t c u with
        | none => simp [hsel, pyTruthyStr]
        | some r =>
          have hrmem := (selectRow_eq_some hsel).1
          have hrne : r.val ≠ "" := by
            have h1 := h.2.1
            rw [hst] at h1
            exact h1 r hrmem
          cases hdec : decode r.val with
          | none => simp [hsel, pyTruthyStr, hrne, hdec]
          | some v => simp [hsel, pyTruthyStr, hrne, hdec, pure, Except.pure]
  have hget_bucket : ∀ dflt : Option Jobj, SQLiteStorage.get_bucket st chat user dflt
      = PGStorage.get_bucket st chat user dflt := by
    intro dflt
    unfold SQLiteStorage.get_bucket PGStorage.get_bucket
    cases hca : checkAddress chat user with
    | none => rfl
    | some cu =>
      obtain ⟨c, u⟩ := cu
      cases hst : st.bucketTbl with
      | none => rfl
      | some t =>
        simp only [getTable, Bind.bind, Except.bind]
        cases hsel : selectRow t c u with
        | none => simp [hsel, pyTruthyStr]
        | some r =>
          have hrmem := (selectRow_eq_some hsel).1
          have hrne : r.val ≠ "" := by
            have h1 := h.2.2
            rw [hst] at h1
            exact h1 r hrmem
          cases hdec : decode r.val with
          | none => simp [hsel, pyTruthyStr, hrne, hdec]
          | some v => simp [hsel, pyTruthyStr, hrne, hdec, pure, Except.pure]
  have hset_data : SQLiteStorage.set_data = PGStorage.set_data := rfl
  have hset_bucket : SQLiteStorage.set_bucket = PGStorage.set_bucket := rfl
  refine ⟨rfl, hget_state, rfl, hget_data ddefault, ?_, rfl, hget_bucket ddefault, ?_,
    rfl, rfl, rfl⟩
  · simp only [SQLiteStorage.update_data, PGStorage.update_data, hget_data (some []),
      hset_data]
  · simp only [SQLiteStorage.update_bucket, PGStorage.update_bucket, hget_bucket none,
      hset_bucket]

theorem c1_backend_equivalence_witness :
    textsNonempty emptyStore ∧
    SQLiteStorage.get_state emptyStore (some 1) (some 2) (some "D")
      = PGStorage.get_state emptyStore (some 1) (some 2) (some "D") :=
  have hte : textsNonempty emptyStore :=
    ⟨fun r hr => absurd hr (List.not_mem_nil r), fun r hr => absurd hr (List.not_mem_nil r),
      fun r hr => absurd hr (List.not_mem_nil r)⟩
  ⟨hte, (c1_backend_equivalence emptyStore hte (some 1) (some 2) (some "s") (some "D")
    none none none [] true).2.1⟩

theorem c2_set_state_null_delete_witness :
    (⟨some [⟨5, 1, "x"⟩], some [], some []⟩ : DBState).stateTbl = some [⟨5, 1, "x"⟩] ∧
    (∀ r ∈ [(⟨5, 1, "x"⟩ : Row)], r.user = 5 → r.chat ≠ 2) ∧
    deleteRows [⟨5, 1, "x"⟩] 2 5 = [⟨5, 1, "x"⟩] :=
  ⟨rfl, by decide,
    (c2_set_state_null_delete ⟨some [⟨5, 1, "x"⟩], some [], some []⟩ [⟨5, 1, "x"⟩] 2 5
      rfl).2.2.2 (by decide)⟩

theorem c3_bucket_upsert_data_delete_witness :
    emptyStore.bucketTbl = some [] ∧ emptyStore.dataTbl = some [] ∧
    (∃ r ∈ upsertRow [] 7 1 (encode (bucketJson (some []))), r.user = 7) :=
  ⟨rfl, rfl,
    (c3_bucket_upsert_data_delete emptyStore [] [] 1 7 (some []) none rfl rfl
      (Or.inl rfl)).2.2.1⟩

theorem c4_reset_all_witness :
    (⟨some [⟨1, 1, "s"⟩], some [⟨2, 2, "d"⟩], some [⟨3, 3, "b"⟩]⟩ : DBState).stateTbl
        = some [⟨1, 1, "s"⟩] ∧
    SQLiteStorage.reset_all ⟨some [⟨1, 1, "s"⟩], some [⟨2, 2, "d"⟩], some [⟨3, 3, "b"⟩]⟩ false
        = .ok ⟨none, some [⟨2, 2, "d"⟩], some [⟨3, 3, "b"⟩]⟩ :=
  ⟨rfl,
    (c4_reset_all ⟨some [⟨1, 1, "s"⟩], some [⟨2, 2, "d"⟩], some [⟨3, 3, "b"⟩]⟩
      [⟨1, 1, "s"⟩] [⟨2, 2, "d"⟩] [⟨3, 3, "b"⟩] rfl rfl rfl).1⟩

theorem c5_update_data_witness :
    selectRow [⟨100, 1, encode (.obj [("a", .num false [1] none), ("b", .num false [2] none)])⟩]
        1 100
      = some ⟨100, 1, encode (.obj [("a", .num false [1] none), ("b", .num false [2] none)])⟩ ∧
    wfFs [("a", .num false [1] none), ("b", .num false [2] none)] = true ∧
    SQLiteStorage.update_data
        ⟨some [], some [⟨100, 1, encode (.obj [("a", .num false [1] none),
          ("b", .num false [2] none)])⟩], some []⟩
        (some 1) (some 100)
        (some [("b", .num false [3] none), ("c", .num false [4] none)]) []
      = .ok ⟨some [], some (upsertRow
          [⟨100, 1, encode (.obj [("a", .num false [1] none), ("b", .num false [2] none)])⟩]
          100 1 (encode (.obj (dictUpdate (dictUpdate
            [("a", .num false [1] none), ("b", .num false [2] none)]
            [("b", .num false [3] none), ("c", .num false [4] none)]) [])))), some []⟩ :=
  ⟨rfl, rfl,
    (c5_update_data
      ⟨some [], some [⟨100, 1, encode (.obj [("a", .num false [1] none),
        ("b", .num false [2] none)])⟩], some []⟩
      [⟨100, 1, encode (.obj [("a", .num false [1] none), ("b", .num false [2] none)])⟩]
      1 100
      ⟨100, 1, encode (.obj [("a", .num false [1] none), ("b", .num false [2] none)])⟩
      [("a", .num false [1] none), ("b", .num false [2] none)]
      [("b", .num false [3] none), ("c", .num false [4] none)] []
      rfl rfl rfl rfl rfl).1⟩

theorem c7_get_states_list_witness :
    (⟨some [⟨100, 1, "s"⟩], some [], some []⟩ : DBState).stateTbl = some [⟨100, 1, "s"⟩] ∧
    SQLiteStorage.get_states_list ⟨some [⟨100, 1, "s"⟩], some [], some []⟩
      = .ok [(1, 100)] :=
  ⟨rfl, (c7_get_states_list ⟨some [⟨100, 1, "s"⟩], some [], some []⟩ [⟨100, 1, "s"⟩] rfl).1⟩

theorem c8_serialization_roundtrip_witness :
    wfV (.obj [("k", .arr [.null, .num false [1] (some [5]), .str "x", .bool false])]) = true ∧
    decode (encode (.obj [("k", .arr [.null, .num false [1] (some [5]), .str "x",
        .bool false])]))
      = some (.obj [("k", .arr [.null, .num false [1] (some [5]), .str "x", .bool false])]) :=
  ⟨rfl,
    (c8_serialization_roundtrip
      (.obj [("k", .arr [.null, .num false [1] (some [5]), .str "x", .bool false])])
      [("a", .bool true)] emptyStore [] 1 7 rfl rfl rfl rfl
      (fun r hr => absurd hr (List.not_mem_nil r))).1⟩

theorem c9_set_state_stale_chat_witness :
    (⟨some [⟨7, 1, "old"⟩], some [], some []⟩ : DBState).stateTbl = some [⟨7, 1, "old"⟩] ∧
    usersNodup [⟨7, 1, "old"⟩] ∧ (1 : Int) ≠ 2 ∧
    (∃ t', SQLiteStorage.set_state ⟨some [⟨7, 1, "old"⟩], some [], some []⟩
        (some 2) (some 7) (some "new")
        = .ok { (⟨some [⟨7, 1, "old"⟩], some [], some []⟩ : DBState) with
            stateTbl := some t' } ∧
      PGStorage.set_state ⟨some [⟨7, 1, "old"⟩], some [], some []⟩
        (some 2) (some 7) (some "new")
        = .ok { (⟨some [⟨7, 1, "old"⟩], some [], some []⟩ : DBState) with
            stateTbl := some t' } ∧
      (⟨7, 1, "new"⟩ : Row) ∈ t' ∧
      SQLiteStorage.get_state { (⟨some [⟨7, 1, "old"⟩], some [], some []⟩ : DBState) with
          stateTbl := some t' } (some 2) (some 7) (some "D") = .ok (some "D") ∧
      PGStorage.get_state { (⟨some [⟨7, 1, "old"⟩], some [], some []⟩ : DBState) with
          stateTbl := some t' } (some 2) (some 7) (some "D") = .ok (some "D")) :=
  ⟨rfl, by simp [usersNodup], by decide,
    c9_set_state_stale_chat ⟨some [⟨7, 1, "old"⟩], some [], some []⟩ [⟨7, 1, "old"⟩]
      1 2 7 "old" "new" "D" rfl (by simp [usersNodup]) (by simp) (by decide)⟩

theorem c10_set_bucket_null_witness :
    (⟨some [], some [], some []⟩ : DBState).bucketTbl = some [] ∧
    (∃ t', SQLiteStorage.set_bucket emptyStore (some 1) (some 7) none
        = .ok { emptyStore with bucketTbl := some t' } ∧
      PGStorage.set_bucket emptyStore (some 1) (some 7) none
        = .ok { emptyStore with bucketTbl := some t' } ∧
      (∃ r ∈ t', r.user = 7 ∧ r.val = encode .null) ∧
      SQLiteStorage.get_bucket { emptyStore with bucketTbl := some t' }
        (some 1) (some 7) (some [("x", .null)]) = .ok .null ∧
      PGStorage.get_bucket { emptyStore with bucketTbl := some t' }
        (some 1) (some 7) (some [("x", .null)]) = .ok .null) :=
  ⟨rfl,
    c10_set_bucket_null emptyStore [] 1 7 [("x", .null)] rfl
      (fun r hr => absurd hr (List.not_mem_nil r))⟩
